import Mathlib

/-!
Verification of the recurrence projection logic of the DeOrganized frontend.

The definitions below are a shallow embedding of the calendar code in
`src/components/EventCalendar.tsx` (the `projectRecurringDates` helper and the
`calendarItems` memo) and `src/components/RealTimeCalendar.tsx` (the
`getEventsForDay` helper).

Modelling conventions:
* A JavaScript `Date` is modelled by `JsDate`: a civil day number (days since
  the Unix epoch, 1970-01-01, which was a Thursday) plus the milliseconds
  elapsed within that day, together with a validity flag (`valid = false`
  models an Invalid Date, e.g. the result of `setHours(NaN, …)`).
* JavaScript strings are modelled as `List Char` (`JsString`), because the
  code inspects them character-wise (`includes(':')`, `length <= 8`,
  `split(':')`).  String literals are written `"…".data`.
* `Number(piece)` applied to the pieces of an `"HH:MM"` split is modelled by
  `jsNumber`: defined on the empty string (JS coerces it to `0`) and on plain
  decimal-digit strings; every other string is mapped to `none`, standing for
  `NaN`.  (Signs, blanks, and fractional forms never reach this code path in
  the repository's data and are outside the model.)
* The host timestamp parser (`new Date(string)` / date-fns `parseISO`) is
  environment-dependent; it is passed to every definition as an oracle
  `parseDate : JsString → Option JsDate`, where `none` models an invalid /
  unparsable result and `some d` a successfully parsed valid instant.
* Entity fields that the calendar logic only copies into the output for
  display (thumbnail, slug, status, creator id, location, …) and never reads
  are omitted from the records; `title` and the creator/organizer username are
  kept because the search filter reads them.
-/

namespace DeOrganized

/-- JavaScript strings, modelled as their character sequences. -/
abbrev JsString := List Char

/-- Milliseconds in one civil day. -/
def msPerDay : Nat := 86400000

/-- Model of a JavaScript `Date` value: epoch day number, milliseconds within
the day, and a validity flag (`valid = false` is an Invalid Date). -/
structure JsDate where
  day : Nat
  ms : Nat
  valid : Bool
deriving DecidableEq

/-- JS `Date.prototype.getDay` (0 = Sunday … 6 = Saturday).  Epoch day 0,
1970-01-01, was a Thursday, hence the offset 4. -/
def JsDate.getDay (d : JsDate) : Nat := (d.day + 4) % 7

/-- JS `Date.prototype.getHours` (local hours within the day). -/
def JsDate.getHours (d : JsDate) : Nat := d.ms / 3600000

/-- JS `Date.prototype.getMinutes`. -/
def JsDate.getMinutes (d : JsDate) : Nat := d.ms % 3600000 / 60000

/-- JS `date.setHours(h, m, 0, 0)` with number arguments: the time of day is
replaced by `h` hours and `m` minutes (seconds and milliseconds zeroed); JS
rolls an out-of-range time over into following days, which the division by
`msPerDay` reproduces. -/
def JsDate.setHours (d : JsDate) (h m : Nat) : JsDate :=
  { day := d.day + (h * 3600000 + m * 60000) / msPerDay
    ms := (h * 3600000 + m * 60000) % msPerDay
    valid := d.valid }

/-- JS `date.setHours(NaN, …)`: the date becomes an Invalid Date. -/
def JsDate.setInvalid (d : JsDate) : JsDate := { d with valid := false }

/-- JS `Date.prototype.getTime` in milliseconds since the epoch; `none` models
the `NaN` returned by an Invalid Date. -/
def JsDate.getTime (d : JsDate) : Option Nat :=
  if d.valid then some (d.day * msPerDay + d.ms) else none

/-- Comparison key produced by `toDateString()`: the calendar day for a valid
date; all Invalid Dates print the same string `"Invalid Date"`, so they all
share the key `none`. -/
def JsDate.dateKey (d : JsDate) : Option Nat :=
  if d.valid then some d.day else none

/-- Splitting a character list at a separator character, as JS
`string.split(sep)` does for a one-character separator: `n` separators yield
`n + 1` (possibly empty) pieces. -/
def splitChars (sep : Char) : List Char → List (List Char)
  | [] => [[]]
  | c :: cs =>
    let rest := splitChars sep cs
    if c = sep then [] :: rest
    else
      match rest with
      | [] => [[c]]
      | p :: ps => (c :: p) :: ps

/-- Decimal-digit parsing helper for `jsNumber`. -/
def digitsToNat : List Char → Nat → Option Nat
  | [], acc => some acc
  | c :: cs, acc => if c.isDigit then digitsToNat cs (acc * 10 + (c.toNat - 48)) else none

/-- JS `Number(s)` restricted to the shapes this code can feed it: the empty
string coerces to `0`, a plain decimal-digit string to its value, and anything
else to `none` (standing for `NaN`). -/
def jsNumber (s : JsString) : Option Nat :=
  if s.isEmpty then some 0 else digitsToNat s 0

/-- JS truthiness of a nullable string: `null`/`undefined` and the empty
string are falsy. -/
def strTruthy : Option JsString → Bool
  | none => false
  | some s => !s.isEmpty

/-- JS `a || b` on nullable strings: `a` when truthy, otherwise `b`. -/
def orStr (a b : Option JsString) : Option JsString :=
  if strTruthy a then a else b

/-- Recurrence-type literal `"DAILY"`. -/
def rDAILY : JsString := "DAILY".data

/-- Recurrence-type literal `"WEEKDAYS"`. -/
def rWEEKDAYS : JsString := "WEEKDAYS".data

/-- Recurrence-type literal `"WEEKENDS"`. -/
def rWEEKENDS : JsString := "WEEKENDS".data

/-- Recurrence-type literal `"SPECIFIC_DAY"`. -/
def rSPECIFIC : JsString := "SPECIFIC_DAY".data

/-- Calendar-item type tag `"show"`. -/
def tShow : JsString := "show".data

/-- Calendar-item type tag `"event"`. -/
def tEvent : JsString := "event".data

/-- Content-filter literal `"all"`. -/
def fAll : JsString := "all".data

/-- Content-filter literal `"shows"`. -/
def fShows : JsString := "shows".data

/-- Content-filter literal `"events"`. -/
def fEvents : JsString := "events".data

/-- The backend-to-JS weekday conversion that EventCalendar.tsx and
RealTimeCalendar.tsx both inline for `SPECIFIC_DAY` rules:
`const frontendDay = dayOfWeek === 6 ? 0 : dayOfWeek + 1`.
Backend convention is 0 = Monday … 6 = Sunday; JS `getDay` is
0 = Sunday … 6 = Saturday. -/
def frontendDay (dayOfWeek : Int) : Int :=
  if dayOfWeek = 6 then 0 else dayOfWeek + 1

/-- The per-day rule test of `projectRecurringDates` (EventCalendar.tsx):
the `shouldAdd` chain over the recurrence type, evaluated at JS weekday
`dow`. -/
def shouldAddDay (recurrenceType : Option JsString) (dayOfWeek : Option Int)
    (dow : Nat) : Bool :=
  if recurrenceType = some rDAILY then true
  else if recurrenceType = some rWEEKDAYS then decide (1 ≤ dow ∧ dow ≤ 5)
  else if recurrenceType = some rWEEKENDS then decide (dow = 0 ∨ dow = 6)
  else if recurrenceType = some rSPECIFIC then
    match dayOfWeek with
    | some d => decide ((dow : Int) = frontendDay d)
    | none => false
  else false

/-- The scheduled-time block of `projectRecurringDates`: when `scheduledTime`
is truthy, either take hour/minute directly from a bare `"HH:MM"` string
(contains a colon and has length at most 8) or fall back to a full timestamp
parse; when the value is falsy or the timestamp parse fails, the date is left
unchanged (it keeps the time of day it already carries).  A `NaN` produced by
`Number` on a colon-containing short string makes `setHours` yield an Invalid
Date. -/
def applyScheduledTime (parseDate : JsString → Option JsDate)
    (scheduledTime : Option JsString) (date : JsDate) : JsDate :=
  match scheduledTime with
  | none => date
  | some s =>
    if s = [] then date
    else if ':' ∈ s ∧ s.length ≤ 8 then
      match splitChars ':' s with
      | hs :: ms :: _ =>
        match jsNumber hs, jsNumber ms with
        | some h, some m => date.setHours h m
        | _, _ => date.setInvalid
      | _ => date.setInvalid
    else
      match parseDate s with
      | some t => date.setHours t.getHours t.getMinutes
      | none => date

/-- The day-enumeration loop of `projectRecurringDates` (EventCalendar.tsx)
with the loop bound exposed as `numDays`; the source fixes `numDays = 28` and
obtains `now` from an internal `new Date()`.  Day `d` of the loop is the
calendar day `now + d` (carrying the clock's time of day); it is emitted when
the rule matches its JS weekday, after the scheduled-time block ran. -/
def projectRecurringDatesOver (parseDate : JsString → Option JsDate)
    (recurrenceType : Option JsString) (dayOfWeek : Option Int)
    (scheduledTime : Option JsString) (now : JsDate) (numDays : Nat) :
    List JsDate :=
  (List.range numDays).filterMap fun d =>
    if shouldAddDay recurrenceType dayOfWeek
        (JsDate.getDay { day := now.day + d, ms := now.ms, valid := now.valid }) then
      some (applyScheduledTime parseDate scheduledTime
        { day := now.day + d, ms := now.ms, valid := now.valid })
    else none

/-- `projectRecurringDates` exactly as EventCalendar.tsx runs it: 28 days
starting at the clock instant `now`. -/
def projectRecurringDates (parseDate : JsString → Option JsDate)
    (recurrenceType : Option JsString) (dayOfWeek : Option Int)
    (scheduledTime : Option JsString) (now : JsDate) : List JsDate :=
  projectRecurringDatesOver parseDate recurrenceType dayOfWeek scheduledTime now 28

/-- The fields of an API `Show` that the calendar logic reads. -/
structure Show where
  id : Nat
  title : JsString
  scheduled_time : Option JsString
  day_of_week : Option Int
  is_recurring : Bool
  recurrence_type : Option JsString
  creator_username : JsString
deriving DecidableEq

/-- The fields of an API `Event` that the calendar logic reads. -/
structure Event where
  id : Nat
  title : JsString
  is_recurring : Bool
  recurrence_type : Option JsString
  day_of_week : Option Int
  scheduled_time : Option JsString
  start_datetime : Option JsString
  start_date : Option JsString
  end_datetime : Option JsString
  end_date : Option JsString
  organizer_username : JsString
deriving DecidableEq

/-- The fields of EventCalendar's `CalendarItem` that its logic reads
(identity key, datetime, and the two searched strings). -/
structure CalendarItem where
  id : Nat
  title : JsString
  type : JsString
  date : JsDate
  endDate : Option JsDate
  creator : JsString
deriving DecidableEq

/-- JS `new Date(s)` used directly on a string: an unparsable string yields an
Invalid Date object (which is still pushed by the code). -/
def jsNewDate (parseDate : JsString → Option JsDate) (s : JsString) : JsDate :=
  (parseDate s).getD { day := 0, ms := 0, valid := false }

/-- The duplicate probe of the recurring push path:
`items.find(i => i.id === id && i.type === ty && i.date.toDateString() === d.toDateString())`. -/
def hasItemFor (items : List CalendarItem) (id : Nat) (ty : JsString)
    (d : JsDate) : Bool :=
  items.any fun i => decide (i.id = id ∧ i.type = ty ∧ i.date.dateKey = d.dateKey)

/-- The calendar item pushed for a show at a given datetime (the remaining
display fields are copied from the show and never read). -/
def mkShowItem (s : Show) (d : JsDate) : CalendarItem :=
  { id := s.id, title := s.title, type := tShow, date := d
    endDate := none, creator := s.creator_username }

/-- The calendar item pushed for an event at a given datetime. -/
def mkEventItem (e : Event) (d : JsDate) : CalendarItem :=
  { id := e.id, title := e.title, type := tEvent, date := d
    endDate := none, creator := e.organizer_username }

/-- The non-recurring half of the show processing: a non-recurring show with
a truthy `scheduled_time` is pushed unconditionally at
`new Date(scheduled_time)` — there is no window check and no duplicate
probe on this path. -/
def pushShowOneOff (parseDate : JsString → Option JsDate)
    (items : List CalendarItem) (s : Show) : List CalendarItem :=
  if s.is_recurring = false ∧ strTruthy s.scheduled_time = true then
    items ++ [mkShowItem s (jsNewDate parseDate (s.scheduled_time.getD []))]
  else items

/-- Processing of one `Show` inside the `calendarItems` memo: the one-off
push, then — for a recurring show with a truthy `recurrence_type` — the
projected dates, each append guarded by the `items.find` duplicate probe. -/
def pushShow (parseDate : JsString → Option JsDate) (now : JsDate)
    (items : List CalendarItem) (s : Show) : List CalendarItem :=
  if s.is_recurring = true ∧ strTruthy s.recurrence_type = true then
    (projectRecurringDates parseDate s.recurrence_type s.day_of_week
        s.scheduled_time now).foldl
      (fun acc d =>
        if hasItemFor acc s.id tShow d then acc
        else acc ++ [mkShowItem s d])
      (pushShowOneOff parseDate items s)
  else pushShowOneOff parseDate items s

/-- The non-recurring half of the event processing: the one-off timestamp is
`start_datetime || start_date` and the optional end date
`end_datetime || end_date`. -/
def pushEventOneOff (parseDate : JsString → Option JsDate)
    (items : List CalendarItem) (e : Event) : List CalendarItem :=
  if e.is_recurring = false then
    if strTruthy (orStr e.start_datetime e.start_date) = true then
      items ++ [{ mkEventItem e
          (jsNewDate parseDate ((orStr e.start_datetime e.start_date).getD [])) with
        endDate := if strTruthy (orStr e.end_datetime e.end_date) = true then
            some (jsNewDate parseDate ((orStr e.end_datetime e.end_date).getD []))
          else none }]
    else items
  else items

/-- Processing of one `Event` inside the `calendarItems` memo, mirroring the
show path; the recurring schedule value is
`scheduled_time || start_datetime || start_date`. -/
def pushEvent (parseDate : JsString → Option JsDate) (now : JsDate)
    (items : List CalendarItem) (e : Event) : List CalendarItem :=
  if e.is_recurring = true ∧ strTruthy e.recurrence_type = true then
    (projectRecurringDates parseDate e.recurrence_type e.day_of_week
        (orStr e.scheduled_time (orStr e.start_datetime e.start_date)) now).foldl
      (fun acc d =>
        if hasItemFor acc e.id tEvent d then acc
        else acc ++ [mkEventItem e d])
      (pushEventOneOff parseDate items e)
  else pushEventOneOff parseDate items e

/-- The show half of the accumulation phase: shows contribute when the
content filter is `all` or `shows`. -/
def showItemsAcc (parseDate : JsString → Option JsDate) (shows : List Show)
    (filter : JsString) (now : JsDate) : List CalendarItem :=
  if filter = fAll ∨ filter = fShows then
    shows.foldl (pushShow parseDate now) []
  else []

/-- The accumulation phase of the `calendarItems` memo: shows are processed
first (when the content filter allows them), then events. -/
def calendarItemsRaw (parseDate : JsString → Option JsDate)
    (shows : List Show) (events : List Event) (filter : JsString)
    (now : JsDate) : List CalendarItem :=
  if filter = fAll ∨ filter = fEvents then
    events.foldl (pushEvent parseDate now) (showItemsAcc parseDate shows filter now)
  else showItemsAcc parseDate shows filter now

/-- Prefix test used by `jsIncludes`. -/
def prefixMatch : List Char → List Char → Bool
  | [], _ => true
  | _ :: _, [] => false
  | a :: as, b :: bs => a = b && prefixMatch as bs

/-- JS `haystack.includes(needle)` on strings: the needle occurs as a
contiguous substring. -/
def jsIncludes (needle : JsString) : JsString → Bool
  | [] => needle.isEmpty
  | c :: cs => prefixMatch needle (c :: cs) || jsIncludes needle cs

/-- The search predicate of the `calendarItems` memo:
`title.toLowerCase().includes(q)` or `creator.toLowerCase().includes(q)` with
`q` lower-cased (ASCII lower-casing models `toLowerCase` for this data). -/
def itemMatches (q : JsString) (i : CalendarItem) : Bool :=
  jsIncludes (q.map Char.toLower) (i.title.map Char.toLower)
    || jsIncludes (q.map Char.toLower) (i.creator.map Char.toLower)

/-- Strict order of the sort comparator
`(a, b) => a.date.getTime() - b.date.getTime()`: a negative comparator value
means both dates are valid and the first is earlier; a `NaN` difference is
treated by `Array.prototype.sort` as `0` (equal). -/
def timeLt (a b : JsDate) : Bool :=
  match a.getTime, b.getTime with
  | some x, some y => decide (x < y)
  | _, _ => false

/-- Stable insertion of an item into a list sorted by `timeLt`: the new item
goes after every earlier item it does not strictly precede.  Used to model
`Array.prototype.sort`, which ECMAScript requires to be stable. -/
def insertByTime (x : CalendarItem) : List CalendarItem → List CalendarItem
  | [] => [x]
  | y :: ys => if timeLt x.date y.date then x :: y :: ys else y :: insertByTime x ys

/-- Stable sort by the `getTime` comparator, modelling
`items.sort((a, b) => a.date.getTime() - b.date.getTime())`. -/
def sortByTime (l : List CalendarItem) : List CalendarItem :=
  l.foldl (fun acc x => insertByTime x acc) []

/-- The full `calendarItems` memo of EventCalendar.tsx: accumulate items, then
either return the search-filtered list (unsorted, as the source does) or the
time-sorted list. -/
def calendarItems (parseDate : JsString → Option JsDate)
    (shows : List Show) (events : List Event) (filter : JsString)
    (searchQuery : JsString) (now : JsDate) : List CalendarItem :=
  if searchQuery = [] then
    sortByTime (calendarItemsRaw parseDate shows events filter now)
  else
    (calendarItemsRaw parseDate shows events filter now).filter
      (itemMatches searchQuery)

/-- The per-show test of `getEventsForDay` in RealTimeCalendar.tsx: a
non-recurring show matches the grid day when `parseISO(scheduled_time)` falls
on the same calendar day; a recurring show matches through the recurrence
switch (with the same inline backend-to-JS weekday conversion). -/
def showOnDay (parseDate : JsString → Option JsDate) (s : Show)
    (date : JsDate) : Bool :=
  let dayOfWeek := date.getDay
  if s.is_recurring = false then
    if strTruthy s.scheduled_time = false then false
    else
      match parseDate (s.scheduled_time.getD []) with
      | some showDate => decide (showDate.day = date.day)
      | none => false
  else
    if s.recurrence_type = some rDAILY then true
    else if s.recurrence_type = some rWEEKDAYS then decide (1 ≤ dayOfWeek ∧ dayOfWeek ≤ 5)
    else if s.recurrence_type = some rWEEKENDS then decide (dayOfWeek = 0 ∨ dayOfWeek = 6)
    else if s.recurrence_type = some rSPECIFIC then
      match s.day_of_week with
      | none => false
      | some d => decide ((dayOfWeek : Int) = frontendDay d)
    else false

/-- The per-event test of `getEventsForDay` in RealTimeCalendar.tsx; the
one-off timestamp is `start_datetime || start_date`. -/
def eventOnDay (parseDate : JsString → Option JsDate) (e : Event)
    (date : JsDate) : Bool :=
  let dayOfWeek := date.getDay
  if e.is_recurring = false then
    let startDt := orStr e.start_datetime e.start_date
    if strTruthy startDt = false then false
    else
      match parseDate (startDt.getD []) with
      | some eventDate => decide (eventDate.day = date.day)
      | none => false
  else
    if e.recurrence_type = some rDAILY then true
    else if e.recurrence_type = some rWEEKDAYS then decide (1 ≤ dayOfWeek ∧ dayOfWeek ≤ 5)
    else if e.recurrence_type = some rWEEKENDS then decide (dayOfWeek = 0 ∨ dayOfWeek = 6)
    else if e.recurrence_type = some rSPECIFIC then
      match e.day_of_week with
      | none => false
      | some d => decide ((dayOfWeek : Int) = frontendDay d)
    else false

/-- `getEventsForDay` of RealTimeCalendar.tsx: the shows and events whose
rule or timestamp matches the given grid day. -/
def getEventsForDay (parseDate : JsString → Option JsDate)
    (shows : List Show) (events : List Event) (date : JsDate) :
    List Show × List Event :=
  (shows.filter fun s => showOnDay parseDate s date,
   events.filter fun e => eventOnDay parseDate e date)

/-- A calendar grid day: midnight of the given epoch day. -/
def dayDate (d : Nat) : JsDate := { day := d, ms := 0, valid := true }

/-- Timestamp-parse oracle that fails on every string; stands in for an
environment in which none of the supplied strings is a parsable timestamp. -/
def noParse : JsString → Option JsDate := fun _ => none

/-- Milliseconds within the day of the clock time 18:30. -/
def ms1830 : Nat := 18 * 3600000 + 30 * 60000

/-- Schedule string literal `"18:30"`. -/
def time1830 : JsString := "18:30".data

/-- Epoch day number of Monday 2024-06-03 (19723 was 2024-01-01, a Monday,
plus the 154 days of January through May 2024 and two more days). -/
def day20240603 : Nat := 19877

/-- Epoch day number of Monday 2024-06-17, the exclusive end of the two-week
window of the concrete scenario. -/
def day20240617 : Nat := 19891

/-- Claim C1: for every backend day 0..6 the conversion used when testing a
SPECIFIC_DAY rule equals `(backendDay + 1) mod 7`; in particular backend 0
(Monday) maps to JS 1 (Monday) and backend 6 (Sunday) to JS 0 (Sunday). -/
theorem frontendDay_mod7 :
    (∀ d : Int, 0 ≤ d → d ≤ 6 → frontendDay d = (d + 1) % 7)
    ∧ frontendDay 0 = 1 ∧ frontendDay 6 = 0 := by
  refine ⟨fun d h0 h6 => ?_, by decide, by decide⟩
  unfold frontendDay
  split <;> omega

/-- Witness for C1 at the concrete backend day 3 (Thursday). -/
theorem frontendDay_mod7_witness :
    0 ≤ (3 : Int) ∧ (3 : Int) ≤ 6 ∧ frontendDay 3 = ((3 : Int) + 1) % 7 :=
  ⟨by decide, by decide, frontendDay_mod7.1 3 (by decide) (by decide)⟩

/-- Claim C2: a recurring SPECIFIC_DAY(0) entity with schedule "18:30",
projected from Monday 2024-06-03 and restricted to the two-week window ending
(exclusively) at 2024-06-17, yields exactly the occurrences
2024-06-03T18:30 and 2024-06-10T18:30.  The source projector is anchored at
the clock instant, so the window is realised by starting the projection at
the window start and keeping the occurrences before the window end; the
conversion holds for every timestamp-parse oracle because "18:30" takes the
bare `HH:MM` branch. -/
theorem specificDay_twoWeek_scenario :
    (dayDate day20240603).getDay = 1
    ∧ ∀ parseDate : JsString → Option JsDate,
        (projectRecurringDates parseDate (some rSPECIFIC) (some 0) (some time1830)
            { day := day20240603, ms := 0, valid := true }).filter
            (fun d => decide (d.day < day20240617))
          = [{ day := day20240603, ms := ms1830, valid := true },
             { day := day20240603 + 7, ms := ms1830, valid := true }] := by
  exact ⟨by decide, fun parseDate => rfl⟩

/-- Epoch day number of Sunday 2024-06-02. -/
def day20240602 : Nat := 19876

/-- A recurring DAILY show with no schedule string. -/
def dailyShow : Show :=
  { id := 1, title := [], scheduled_time := none, day_of_week := none
    is_recurring := true, recurrence_type := some rDAILY, creator_username := [] }

/-- Timestamp string literal resolving to 2024-06-03 10:00. -/
def isoJun3Ten : JsString := "2024-06-03T10:00:00".data

/-- Timestamp-parse oracle that parses exactly `isoJun3Ten`, to 2024-06-03
10:00 local time. -/
def parseFixed : JsString → Option JsDate := fun s =>
  if s = isoJun3Ten then some { day := day20240603, ms := 36000000, valid := true }
  else none

/-- A non-recurring show (id 1) scheduled at the one-off timestamp
`isoJun3Ten`. -/
def oneOffShow : Show :=
  { id := 1, title := [], scheduled_time := some isoJun3Ten, day_of_week := none
    is_recurring := false, recurrence_type := none, creator_username := [] }

/-- The same one-off timestamp under show id 5, for tie-breaking checks. -/
def showTie5 : Show :=
  { id := 5, title := [], scheduled_time := some isoJun3Ten, day_of_week := none
    is_recurring := false, recurrence_type := none, creator_username := [] }

/-- A recurring SPECIFIC_DAY show whose backend anchor day is the
out-of-range value -1. -/
def sundayNegShow : Show :=
  { id := 4, title := [], scheduled_time := none, day_of_week := some (-1)
    is_recurring := true, recurrence_type := some rSPECIFIC, creator_username := [] }

/-- The deduplication invariant between two output items: they must not agree
on entity id, entity type, and calendar day of the occurrence. -/
abbrev diffKey (a b : CalendarItem) : Prop :=
  ¬ (a.id = b.id ∧ a.type = b.type ∧ a.date.dateKey = b.date.dateKey)

/-- Counterexample for C3: with the entity list and all other state fixed, the
`calendarItems` output differs between two clock instants one day apart, so
the output does depend on the internally read clock (`const now = new Date()`
inside `projectRecurringDates`): there is no caller-supplied window. -/
theorem calendarItems_reads_clock :
    calendarItems noParse [dailyShow] [] fAll []
        { day := day20240603, ms := 0, valid := true }
      ≠ calendarItems noParse [dailyShow] [] fAll []
        { day := day20240603 + 1, ms := 0, valid := true } := by
  decide

/-- Counterexample for C4: the same non-recurring show appearing twice in the
input list is pushed twice with identical (id, type, calendar-day) keys — the
duplicate probe guards only the recurring path. -/
theorem oneOff_duplicate_breaks_dedup :
    ¬ List.Pairwise diffKey
        (calendarItems parseFixed [oneOffShow, oneOffShow] [] fAll []
          { day := day20240603, ms := 0, valid := true }) := by
  decide

/-- Counterexample for C5: with the schedule value absent, occurrences keep
the time of day of the clock instant (here 09:15, ms 33300000), not 00:00. -/
theorem missing_time_not_midnight :
    (projectRecurringDates noParse (some rDAILY) none none
        { day := day20240603, ms := 33300000, valid := true }).all
        (fun x => x.ms == 0) = false
    ∧ (projectRecurringDates noParse (some rDAILY) none none
        { day := day20240603, ms := 33300000, valid := true }).head?
      = some { day := day20240603, ms := 33300000, valid := true } := by
  decide

/-- Counterexample for C7: two one-off shows with the identical timestamp are
returned in input order (ids 5 then 1) — the comparator uses only `getTime`,
so the claimed entityType/entityId tie-breaking does not happen. -/
theorem sort_lacks_tiebreak :
    ¬ List.Pairwise
        (fun a b => a.date.getTime = b.date.getTime → a.type = b.type → a.id ≤ b.id)
        (calendarItems parseFixed [showTie5, oneOffShow] [] fAll []
          { day := day20240603, ms := 0, valid := true }) := by
  decide

/-- Counterexample for C8: a SPECIFIC_DAY rule with the out-of-range backend
day -1 does emit occurrences: `frontendDay (-1) = 0`, so it matches every
Sunday of the 28-day projection (four occurrences from Sunday 2024-06-02)
instead of emitting nothing. -/
theorem specificDay_minus_one_matches_sunday :
    (calendarItems noParse [sundayNegShow] [] fAll []
        { day := day20240602, ms := 0, valid := true }).length = 4
    ∧ (calendarItems noParse [sundayNegShow] [] fAll []
        { day := day20240602, ms := 0, valid := true }).all
        (fun i => i.date.getDay == 0) = true := by
  decide

/-- A schedule value that resolves without day overflow: it is absent or
falsy (date left unchanged), or its resolved hour/minute stay within one day
(no 24h-plus rollover), or the timestamp parse fails (date left unchanged).
Mirrors the branch structure of `applyScheduledTime`. -/
def timeOk (parseDate : JsString → Option JsDate)
    (scheduledTime : Option JsString) : Bool :=
  match scheduledTime with
  | none => true
  | some s =>
    if s = [] then true
    else if ':' ∈ s ∧ s.length ≤ 8 then
      match splitChars ':' s with
      | hs :: ms :: _ =>
        match jsNumber hs, jsNumber ms with
        | some h, some m => decide (h * 3600000 + m * 60000 < msPerDay)
        | _, _ => false
      | _ => false
    else
      match parseDate s with
      | some t => decide (t.ms < msPerDay)
      | none => true

/-- A schedule value that definitely overwrites the time of day: the bare
`HH:MM` branch succeeds, or the timestamp parse succeeds.  When this holds,
the clock's time of day cannot leak into the occurrence. -/
def timeForces (parseDate : JsString → Option JsDate)
    (scheduledTime : Option JsString) : Bool :=
  match scheduledTime with
  | none => false
  | some s =>
    if s = [] then false
    else if ':' ∈ s ∧ s.length ≤ 8 then
      match splitChars ':' s with
      | hs :: ms :: _ => (jsNumber hs).isSome && (jsNumber ms).isSome
      | _ => false
    else (parseDate s).isSome

/-- Setting an in-range time of day changes neither the calendar day nor the
validity flag. -/
theorem setHours_of_lt (w : JsDate) {h m : Nat}
    (hb : h * 3600000 + m * 60000 < msPerDay) :
    w.setHours h m = { day := w.day, ms := h * 3600000 + m * 60000, valid := w.valid } := by
  unfold JsDate.setHours
  rw [Nat.div_eq_of_lt hb, Nat.mod_eq_of_lt hb, Nat.add_zero]

/-- The hour/minute of a clock value within one day recombine to a time
within one day. -/
theorem getHours_bound (t : JsDate) (h : t.ms < msPerDay) :
    t.getHours * 3600000 + t.getMinutes * 60000 < msPerDay := by
  unfold JsDate.getHours JsDate.getMinutes msPerDay at *
  omega

/-- Under `timeOk`, the scheduled-time block preserves the calendar day and
the validity flag of the enumerated date. -/
theorem applyScheduledTime_day {p : JsString → Option JsDate}
    {st : Option JsString} (w : JsDate) (h : timeOk p st = true) :
    (applyScheduledTime p st w).day = w.day
    ∧ (applyScheduledTime p st w).valid = w.valid := by
  cases st with
  | none => exact ⟨rfl, rfl⟩
  | some s =>
    simp only [timeOk] at h
    by_cases h0 : s = []
    · simp [applyScheduledTime, h0]
    · by_cases h1 : ':' ∈ s ∧ s.length ≤ 8
      · rw [if_neg h0, if_pos h1] at h
        split at h
        · rename_i hs ms rest heq
          split at h
          · rename_i hv mv hh hm
            have hb := of_decide_eq_true h
            simp [applyScheduledTime, h0, h1, heq, hh, hm, setHours_of_lt w hb]
          · simp at h
        · simp at h
      · rw [if_neg h0, if_neg h1] at h
        split at h
        · rename_i t heq
          have hb := of_decide_eq_true h
          simp [applyScheduledTime, h0, h1, heq, setHours_of_lt w (getHours_bound t hb)]
        · rename_i heq
          simp [applyScheduledTime, h0, h1, heq]

/-- Under `timeForces`, the result of the scheduled-time block depends on the
enumerated date only through its calendar day and validity flag. -/
theorem applyScheduledTime_congr {p : JsString → Option JsDate}
    {st : Option JsString} (h : timeForces p st = true) {w1 w2 : JsDate}
    (hd : w1.day = w2.day) (hv : w1.valid = w2.valid) :
    applyScheduledTime p st w1 = applyScheduledTime p st w2 := by
  cases st with
  | none => simp [timeForces] at h
  | some s =>
    simp only [timeForces] at h
    by_cases h0 : s = []
    · rw [if_pos h0] at h; simp at h
    · by_cases h1 : ':' ∈ s ∧ s.length ≤ 8
      · rw [if_neg h0, if_pos h1] at h
        split at h
        · rename_i hs ms rest heq
          rw [Bool.and_eq_true, Option.isSome_iff_exists, Option.isSome_iff_exists] at h
          obtain ⟨⟨hv2, hh⟩, ⟨mv, hm⟩⟩ := h
          simp [applyScheduledTime, h0, h1, heq, hh, hm, JsDate.setHours, hd, hv]
        · simp at h
      · rw [if_neg h0, if_neg h1] at h
        rw [Option.isSome_iff_exists] at h
        obtain ⟨t, hp⟩ := h
        simp [applyScheduledTime, h0, h1, hp, JsDate.setHours, hd, hv]

/-- Claim C5, amended: the bare `HH:MM` heuristic (colon present, length at
most 8) takes hour and minute directly from the split pieces; but when the
schedule value is absent, empty, or fails the full-timestamp parse, the
enumerated date is returned unchanged — it keeps the clock's time of day, it
is not reset to 00:00.  In particular a projection with an absent schedule
emits every occurrence at the clock's own milliseconds-of-day. -/
theorem scheduledTime_resolution :
    (∀ (p : JsString → Option JsDate) (s hs ms : JsString)
        (rest : List JsString) (h m : Nat) (date : JsDate),
        s ≠ [] → ':' ∈ s → s.length ≤ 8 →
        splitChars ':' s = hs :: ms :: rest →
        jsNumber hs = some h → jsNumber ms = some m →
        applyScheduledTime p (some s) date = date.setHours h m)
    ∧ (∀ (p : JsString → Option JsDate) (st : Option JsString) (date : JsDate),
        (st = none ∨ st = some [] ∨
          ∃ s, st = some s ∧ s ≠ [] ∧ ¬ (':' ∈ s ∧ s.length ≤ 8) ∧ p s = none) →
        applyScheduledTime p st date = date)
    ∧ (∀ (p : JsString → Option JsDate) (rt : Option JsString)
        (dow : Option Int) (now : JsDate) (n : Nat),
        ∀ x ∈ projectRecurringDatesOver p rt dow none now n, x.ms = now.ms) := by
  refine ⟨?_, ?_, ?_⟩
  · intro p s hs ms rest h m date h0 hc hl hsp hh hm
    simp [applyScheduledTime, h0, hc, hl, hsp, hh, hm]
  · intro p st date hcase
    rcases hcase with h | h | ⟨s, hst, h0, h1, hp⟩
    · rw [h]; rfl
    · rw [h]; simp [applyScheduledTime]
    · rw [hst]
      simp [applyScheduledTime, h0, h1, hp]
  · intro p rt dow now n x hx
    unfold projectRecurringDatesOver at hx
    rw [List.mem_filterMap] at hx
    obtain ⟨d, _, hd⟩ := hx
    by_cases hc : shouldAddDay rt dow
        (JsDate.getDay { day := now.day + d, ms := now.ms, valid := now.valid }) = true
    · rw [if_pos hc] at hd
      cases hd
      rfl
    · rw [if_neg hc] at hd
      cases hd

/-- Witness for the amended C5 at the schedule string "18:30". -/
theorem scheduledTime_resolution_witness :
    jsNumber ("18".data) = some 18
    ∧ applyScheduledTime noParse (some time1830) (dayDate day20240603)
      = (dayDate day20240603).setHours 18 30 :=
  ⟨by decide,
   scheduledTime_resolution.1 noParse time1830 ("18".data) ("30".data) [] 18 30
     (dayDate day20240603) (by decide) (by decide) (by decide) (by decide)
     (by decide) (by decide)⟩

/-- Auxiliary: a `filterMap` whose function never drops elements is a map. -/
theorem filterMap_some_eq_map {α β : Type} (f : α → β) (l : List α) :
    l.filterMap (fun a => some (f a)) = l.map f := by
  induction l with
  | nil => rfl
  | cons a l ih => simp [List.filterMap_cons, ih]

/-- Claim C9: a DAILY projection over a window of `n` days (the source fixes
`n = 28`) yields exactly `n` occurrences, one on each calendar day of the
window, in strictly increasing day order; `timeOk` rules out the degenerate
schedule strings whose `setHours` rolls an occurrence past midnight. -/
theorem daily_completeness (p : JsString → Option JsDate) (dow : Option Int)
    (st : Option JsString) (now : JsDate) (n : Nat) (h : timeOk p st = true) :
    ((projectRecurringDatesOver p (some rDAILY) dow st now n).map JsDate.day
        = (List.range n).map fun i => now.day + i)
    ∧ (projectRecurringDatesOver p (some rDAILY) dow st now n).length = n
    ∧ List.Pairwise (fun a b => a < b)
        ((projectRecurringDatesOver p (some rDAILY) dow st now n).map JsDate.day) := by
  have hform : projectRecurringDatesOver p (some rDAILY) dow st now n
      = (List.range n).map fun d =>
          applyScheduledTime p st { day := now.day + d, ms := now.ms, valid := now.valid } := by
    unfold projectRecurringDatesOver
    have hdaily : ∀ x, shouldAddDay (some rDAILY) dow x = true := fun _ => rfl
    simp only [hdaily, if_true]
    exact filterMap_some_eq_map _ _
  have h1 : (projectRecurringDatesOver p (some rDAILY) dow st now n).map JsDate.day
      = (List.range n).map fun i => now.day + i := by
    rw [hform, List.map_map]
    apply List.map_congr_left
    intro d _
    exact (applyScheduledTime_day _ h).1
  refine ⟨h1, ?_, ?_⟩
  · rw [hform, List.length_map, List.length_range]
  · rw [h1, List.pairwise_map]
    exact (List.pairwise_lt_range n).imp (by omega)

/-- Witness for C9 with a three-day window starting Monday 2024-06-03 and the
schedule "18:30". -/
theorem daily_completeness_witness :
    timeOk noParse (some time1830) = true
    ∧ (projectRecurringDatesOver noParse (some rDAILY) none (some time1830)
          { day := day20240603, ms := 0, valid := true } 3).length = 3 :=
  ⟨by decide,
   (daily_completeness noParse none (some time1830)
     { day := day20240603, ms := 0, valid := true } 3 (by decide)).2.1⟩

/-- Auxiliary count of the single matching index in a day range. -/
theorem length_filter_range_eq (S N D : Nat) :
    ((List.range N).filter fun i => decide (D = S + i)).length
      = if S ≤ D ∧ D < S + N then 1 else 0 := by
  induction N with
  | zero =>
    rw [List.range_zero, List.filter_nil, List.length_nil, if_neg (by omega)]
  | succ n ih =>
    rw [List.range_succ, List.filter_append, List.length_append, ih]
    have hsingle : (List.filter (fun i => decide (D = S + i)) [n]).length
        = if D = S + n then 1 else 0 := by
      by_cases hD : D = S + n
      · simp [hD]
      · simp [hD]
    rw [hsingle]
    by_cases hD : D = S + n
    · rw [if_pos hD, if_neg (by omega), if_pos (by omega)]
    · rw [if_neg hD]
      by_cases hin : S ≤ D ∧ D < S + n
      · rw [if_pos hin, if_pos (by omega)]
      · rw [if_neg hin, if_neg (by omega)]

/-- Claim C6: in RealTimeCalendar's day grid a non-recurring show matches a
grid day exactly when its parsed timestamp falls on that calendar day; over
the window of days `S, S+1, …, S+N-1` (whose exclusive end is midnight of day
`S+N`) it therefore appears exactly once when its calendar day lies in
`[S, S+N)` and never otherwise — so a timestamp exactly at the window end
(day `S+N`, ms 0) is excluded, while the window end minus 1ms (day `S+N-1`,
ms 86399999) is included. -/
theorem oneOff_window_membership (p : JsString → Option JsDate) (s : Show)
    (t : JsDate) (S N : Nat)
    (h1 : s.is_recurring = false)
    (h2 : strTruthy s.scheduled_time = true)
    (h3 : p (s.scheduled_time.getD []) = some t) :
    (∀ d : Nat, showOnDay p s (dayDate d) = decide (t.day = d))
    ∧ ((List.range N).filter fun i => showOnDay p s (dayDate (S + i))).length
        = if S ≤ t.day ∧ t.day < S + N then 1 else 0 := by
  have hday : ∀ d : Nat, showOnDay p s (dayDate d) = decide (t.day = d) := by
    intro d
    simp [showOnDay, h1, h2, h3, dayDate]
  refine ⟨hday, ?_⟩
  rw [List.filter_congr fun i _ => hday (S + i)]
  exact length_filter_range_eq S N t.day

/-- Timestamp string standing for 2024-06-09T23:59:59.999, one millisecond
before the end of the window starting Monday 2024-06-03 with 7 days. -/
def endMinusStr : JsString := "2024-06-09T23:59:59.999".data

/-- Oracle parsing exactly `endMinusStr` to day 19883 at ms 86399999. -/
def parseEndMinus : JsString → Option JsDate := fun s =>
  if s = endMinusStr then some { day := 19883, ms := 86399999, valid := true }
  else none

/-- A non-recurring show scheduled one millisecond before the window end. -/
def showEndMinus : Show :=
  { id := 7, title := [], scheduled_time := some endMinusStr, day_of_week := none
    is_recurring := false, recurrence_type := none, creator_username := [] }

/-- Witness for C6: the show one millisecond before the window end appears
exactly once in the 7-day window starting Monday 2024-06-03. -/
theorem oneOff_window_membership_witness :
    strTruthy showEndMinus.scheduled_time = true
    ∧ ((List.range 7).filter
          fun i => showOnDay parseEndMinus showEndMinus (dayDate (day20240603 + i))).length
      = if day20240603 ≤ 19883 ∧ 19883 < day20240603 + 7 then 1 else 0 :=
  ⟨by decide,
   (oneOff_window_membership parseEndMinus showEndMinus
     { day := 19883, ms := 86399999, valid := true } day20240603 7
     (by decide) (by decide) (by decide)).2⟩

/-- Auxiliary pointwise congruence for `List.foldl`. -/
theorem foldl_ext {α β : Type} (f g : β → α → β) (l : List α)
    (h : ∀ a ∈ l, ∀ acc, f acc a = g acc a) :
    ∀ init, l.foldl f init = l.foldl g init := by
  induction l with
  | nil => intro _; rfl
  | cons a l ih =>
    intro init
    rw [List.foldl_cons, List.foldl_cons, h a (List.mem_cons_self a l)]
    exact ih (fun x hx acc => h x (List.mem_cons_of_mem a hx) acc) _

/-- Auxiliary pointwise congruence for `List.filterMap`. -/
theorem filterMap_ext {α β : Type} (f g : α → Option β) (l : List α)
    (h : ∀ a ∈ l, f a = g a) : l.filterMap f = l.filterMap g := by
  induction l with
  | nil => rfl
  | cons a l ih =>
    rw [List.filterMap_cons, List.filterMap_cons, h a (List.mem_cons_self a l),
      ih (fun x hx => h x (List.mem_cons_of_mem a hx))]

/-- Under `timeForces`, the projection loop depends on the clock only through
its calendar day and validity flag. -/
theorem projectOver_clock {p : JsString → Option JsDate} {rt : Option JsString}
    {dow : Option Int} {st : Option JsString} (hf : timeForces p st = true)
    {now1 now2 : JsDate} (hd : now1.day = now2.day) (hv : now1.valid = now2.valid)
    (n : Nat) :
    projectRecurringDatesOver p rt dow st now1 n
      = projectRecurringDatesOver p rt dow st now2 n := by
  unfold projectRecurringDatesOver
  apply filterMap_ext
  intro a _
  have hdow : JsDate.getDay { day := now1.day + a, ms := now1.ms, valid := now1.valid }
      = JsDate.getDay { day := now2.day + a, ms := now2.ms, valid := now2.valid } := by
    simp [JsDate.getDay, hd]
  rw [hdow]
  by_cases hsa : shouldAddDay rt dow
      (JsDate.getDay { day := now2.day + a, ms := now2.ms, valid := now2.valid }) = true
  · rw [if_pos hsa, if_pos hsa]
    exact congrArg some (applyScheduledTime_congr hf (by simp [hd]) (by simp [hv]))
  · rw [if_neg hsa, if_neg hsa]

/-- Under the forced-time hypothesis for the show's schedule, processing one
show depends on the clock only through its day and validity. -/
theorem pushShow_clock {p : JsString → Option JsDate} {now1 now2 : JsDate}
    (hd : now1.day = now2.day) (hv : now1.valid = now2.valid) (s : Show)
    (hf : s.is_recurring = true → strTruthy s.recurrence_type = true →
      timeForces p s.scheduled_time = true) (items : List CalendarItem) :
    pushShow p now1 items s = pushShow p now2 items s := by
  unfold pushShow
  by_cases hr : s.is_recurring = true ∧ strTruthy s.recurrence_type = true
  · rw [if_pos hr, if_pos hr]
    unfold projectRecurringDates
    rw [projectOver_clock (hf hr.1 hr.2) hd hv 28]
  · rw [if_neg hr, if_neg hr]

/-- Analogue of `pushShow_clock` for events. -/
theorem pushEvent_clock {p : JsString → Option JsDate} {now1 now2 : JsDate}
    (hd : now1.day = now2.day) (hv : now1.valid = now2.valid) (e : Event)
    (hf : e.is_recurring = true → strTruthy e.recurrence_type = true →
      timeForces p (orStr e.scheduled_time (orStr e.start_datetime e.start_date)) = true)
    (items : List CalendarItem) :
    pushEvent p now1 items e = pushEvent p now2 items e := by
  unfold pushEvent
  by_cases hr : e.is_recurring = true ∧ strTruthy e.recurrence_type = true
  · rw [if_pos hr, if_pos hr]
    unfold projectRecurringDates
    rw [projectOver_clock (hf hr.1 hr.2) hd hv 28]
  · rw [if_neg hr, if_neg hr]

/-- Claim C3, amended: the memo is a deterministic pure function of its
inputs together with the internally read clock instant — identical inputs and
clock yield identical output, and the output depends on the clock only
through its calendar day (given validity and schedule strings whose time
always resolves); but "today" is read inside `projectRecurringDates`
(`const now = new Date()`), not supplied through caller window bounds, so
fixing the entities alone does not fix the output. -/
theorem calendarItems_deterministic_given_clock
    (p : JsString → Option JsDate) (shows : List Show) (events : List Event)
    (filter searchQuery : JsString) (now1 now2 : JsDate)
    (hd : now1.day = now2.day) (hv : now1.valid = now2.valid)
    (hs : ∀ s ∈ shows, s.is_recurring = true → strTruthy s.recurrence_type = true →
      timeForces p s.scheduled_time = true)
    (he : ∀ e ∈ events, e.is_recurring = true → strTruthy e.recurrence_type = true →
      timeForces p (orStr e.scheduled_time (orStr e.start_datetime e.start_date)) = true) :
    calendarItems p shows events filter searchQuery now1
      = calendarItems p shows events filter searchQuery now2 := by
  have hraw : calendarItemsRaw p shows events filter now1
      = calendarItemsRaw p shows events filter now2 := by
    unfold calendarItemsRaw showItemsAcc
    have hshows : shows.foldl (pushShow p now1) [] = shows.foldl (pushShow p now2) [] :=
      foldl_ext _ _ shows (fun s hs2 acc => pushShow_clock hd hv s (hs s hs2) acc) []
    have hevents : ∀ init, events.foldl (pushEvent p now1) init
        = events.foldl (pushEvent p now2) init :=
      foldl_ext _ _ events (fun e he2 acc => pushEvent_clock hd hv e (he e he2) acc)
    by_cases hfe : filter = fAll ∨ filter = fEvents
    · rw [if_pos hfe, if_pos hfe]
      by_cases hfs : filter = fAll ∨ filter = fShows
      · rw [if_pos hfs, if_pos hfs, hshows, hevents]
      · rw [if_neg hfs, if_neg hfs, hevents]
    · rw [if_neg hfe, if_neg hfe]
      by_cases hfs : filter = fAll ∨ filter = fShows
      · rw [if_pos hfs, if_pos hfs, hshows]
      · rw [if_neg hfs, if_neg hfs]
  unfold calendarItems
  rw [hraw]

/-- A recurring DAILY show scheduled at "18:30". -/
def show1830 : Show :=
  { id := 9, title := [], scheduled_time := some time1830, day_of_week := none
    is_recurring := true, recurrence_type := some rDAILY, creator_username := [] }

/-- Witness for the amended C3: two clock instants on the same day (5 ms
apart) give identical output for a DAILY 18:30 show. -/
theorem calendarItems_deterministic_given_clock_witness :
    timeForces noParse (some time1830) = true
    ∧ calendarItems noParse [show1830] [] fAll []
        { day := day20240603, ms := 5, valid := true }
      = calendarItems noParse [show1830] [] fAll []
        { day := day20240603, ms := 0, valid := true } :=
  ⟨by decide,
   calendarItems_deterministic_given_clock noParse [show1830] [] fAll []
     { day := day20240603, ms := 5, valid := true }
     { day := day20240603, ms := 0, valid := true }
     rfl rfl (by decide) (by decide)⟩

/-- Characterization of the comparator order. -/
theorem timeLt_iff {a b : JsDate} :
    timeLt a b = true
      ↔ ∃ x y, a.getTime = some x ∧ b.getTime = some y ∧ x < y := by
  unfold timeLt
  cases a.getTime <;> cases b.getTime <;> simp

/-- The comparator order is transitive. -/
theorem timeLt_trans {a b c : JsDate} (h1 : timeLt a b = true)
    (h2 : timeLt b c = true) : timeLt a c = true := by
  rw [timeLt_iff] at h1 h2 ⊢
  obtain ⟨x, y, hax, hby, hxy⟩ := h1
  obtain ⟨y2, z, hby2, hcz, hyz⟩ := h2
  rw [hby] at hby2
  obtain rfl : y2 = y := (Option.some.injEq _ _ ▸ hby2).symm
  exact ⟨x, z, hax, hcz, by omega⟩

/-- The comparator order is asymmetric. -/
theorem timeLt_asymm {a b : JsDate} (h : timeLt a b = true) :
    timeLt b a = false := by
  cases hba : timeLt b a with
  | false => rfl
  | true =>
    rw [timeLt_iff] at h hba
    obtain ⟨x, y, hax, hby, hxy⟩ := h
    obtain ⟨y2, x2, hby2, hax2, hyx⟩ := hba
    rw [hby] at hby2
    rw [hax] at hax2
    obtain rfl : y2 = y := (Option.some.injEq _ _ ▸ hby2).symm
    obtain rfl : x2 = x := (Option.some.injEq _ _ ▸ hax2).symm
    omega

/-- The stable insertion produces a permutation of the cons. -/
theorem insertByTime_perm (x : CalendarItem) (l : List CalendarItem) :
    (insertByTime x l).Perm (x :: l) := by
  induction l with
  | nil => exact List.Perm.refl _
  | cons y ys ih =>
    unfold insertByTime
    by_cases h : timeLt x.date y.date = true
    · rw [if_pos h]
    · rw [if_neg h]
      exact (ih.cons y).trans (List.Perm.swap x y ys)

/-- Membership after stable insertion. -/
theorem insertByTime_mem {x a : CalendarItem} {l : List CalendarItem}
    (h : a ∈ insertByTime x l) : a = x ∨ a ∈ l :=
  List.mem_cons.mp ((insertByTime_perm x l).mem_iff.mp h)

/-- The stable insertion preserves the no-later-element-strictly-earlier
invariant. -/
theorem insertByTime_pairwise {x : CalendarItem} {l : List CalendarItem}
    (h : List.Pairwise (fun a b => timeLt b.date a.date = false) l) :
    List.Pairwise (fun a b => timeLt b.date a.date = false) (insertByTime x l) := by
  induction l with
  | nil => simp [insertByTime]
  | cons y ys ih =>
    rw [List.pairwise_cons] at h
    obtain ⟨hy, hys⟩ := h
    unfold insertByTime
    by_cases hlt : timeLt x.date y.date = true
    · rw [if_pos hlt, List.pairwise_cons]
      constructor
      · intro z hz
        rcases List.mem_cons.mp hz with rfl | hz2
        · exact timeLt_asymm hlt
        · cases hzc : timeLt z.date x.date with
          | false => rfl
          | true =>
            have := timeLt_trans hzc hlt
            rw [hy z hz2] at this
            cases this
      · rw [List.pairwise_cons]
        exact ⟨hy, hys⟩
    · have hlt' : timeLt x.date y.date = false := by
        revert hlt; cases timeLt x.date y.date <;> simp
      rw [if_neg hlt, List.pairwise_cons]
      constructor
      · intro z hz
        rcases insertByTime_mem hz with rfl | hz2
        · exact hlt'
        · exact hy z hz2
      · exact ih hys

/-- The insertion-sort fold permutes its accumulator and input. -/
theorem sortByTime_aux_perm (l : List CalendarItem) :
    ∀ acc, (l.foldl (fun a x => insertByTime x a) acc).Perm (acc ++ l) := by
  induction l with
  | nil => intro acc; simp
  | cons x xs ih =>
    intro acc
    rw [List.foldl_cons]
    refine (ih (insertByTime x acc)).trans ?_
    exact ((insertByTime_perm x acc).append_right xs).trans List.perm_middle.symm

/-- The modelled sort is a permutation of its input. -/
theorem sortByTime_perm (l : List CalendarItem) : (sortByTime l).Perm l := by
  have h := sortByTime_aux_perm l []
  simpa [sortByTime] using h

/-- The insertion-sort fold keeps the sortedness invariant. -/
theorem sortByTime_aux_pairwise (l : List CalendarItem) :
    ∀ acc, List.Pairwise (fun a b => timeLt b.date a.date = false) acc →
      List.Pairwise (fun a b => timeLt b.date a.date = false)
        (l.foldl (fun a x => insertByTime x a) acc) := by
  induction l with
  | nil => intro acc h; exact h
  | cons x xs ih =>
    intro acc h
    rw [List.foldl_cons]
    exact ih _ (insertByTime_pairwise h)

/-- The modelled sort output carries the sortedness invariant. -/
theorem sortByTime_pairwise (l : List CalendarItem) :
    List.Pairwise (fun a b => timeLt b.date a.date = false) (sortByTime l) :=
  sortByTime_aux_pairwise l [] List.Pairwise.nil

/-- Claim C7, amended: with no active search query the output is sorted
ascending by `getTime` (no later item is strictly earlier), as a permutation
of the accumulated items; ties are left in insertion order (stable sort), not
re-ordered by entityType/entityId, and an active search query skips the sort
altogether. -/
theorem calendarItems_time_sorted (p : JsString → Option JsDate)
    (shows : List Show) (events : List Event) (filter : JsString)
    (now : JsDate) :
    List.Pairwise (fun a b => timeLt b.date a.date = false)
      (calendarItems p shows events filter [] now)
    ∧ (calendarItems p shows events filter [] now).Perm
      (calendarItemsRaw p shows events filter now) := by
  unfold calendarItems
  rw [if_pos rfl]
  exact ⟨sortByTime_pairwise _, sortByTime_perm _⟩

/-- The deduplication key relation is symmetric. -/
theorem diffKey_symm : ∀ {a b : CalendarItem}, diffKey a b → diffKey b a :=
  fun h hc => h ⟨hc.1.symm, hc.2.1.symm, hc.2.2.symm⟩

/-- A failed duplicate probe means no accumulated item carries the key. -/
theorem hasItemFor_false {items : List CalendarItem} {idv : Nat}
    {ty : JsString} {d : JsDate} (h : hasItemFor items idv ty d = false) :
    ∀ i ∈ items, ¬ (i.id = idv ∧ i.type = ty ∧ i.date.dateKey = d.dateKey) := by
  intro i hi
  unfold hasItemFor at h
  rw [List.any_eq_false] at h
  exact fun hc => h i hi (decide_eq_true hc)

/-- The guarded fold of the recurring push path preserves pairwise-distinct
keys: an item is appended only when no accumulated item carries its key. -/
theorem dedupFoldl_pairwise (idv : Nat) (ty : JsString)
    (mk : JsDate → CalendarItem) (hid : ∀ d, (mk d).id = idv)
    (hty : ∀ d, (mk d).type = ty) (hdt : ∀ d, (mk d).date = d)
    (dates : List JsDate) :
    ∀ acc : List CalendarItem, List.Pairwise diffKey acc →
      List.Pairwise diffKey (dates.foldl
        (fun acc d => if hasItemFor acc idv ty d then acc else acc ++ [mk d]) acc) := by
  induction dates with
  | nil => intro acc h; exact h
  | cons d ds ih =>
    intro acc h
    rw [List.foldl_cons]
    by_cases hdup : hasItemFor acc idv ty d = true
    · rw [if_pos hdup]
      exact ih acc h
    · have hdup' : hasItemFor acc idv ty d = false := by
        revert hdup; cases hasItemFor acc idv ty d <;> simp
      rw [if_neg hdup]
      apply ih
      rw [List.pairwise_append]
      refine ⟨h, List.pairwise_singleton _ _, ?_⟩
      intro a ha b hb
      rw [List.mem_singleton] at hb
      subst hb
      intro hc
      exact hasItemFor_false hdup' a ha
        ⟨hc.1.trans (hid d), hc.2.1.trans (hty d),
         hc.2.2.trans (congrArg JsDate.dateKey (hdt d))⟩

/-- Processing a recurring show preserves pairwise-distinct keys. -/
theorem pushShow_recurring_pairwise {p : JsString → Option JsDate}
    {now : JsDate} {items : List CalendarItem} (s : Show)
    (hrec : s.is_recurring = true) (h : List.Pairwise diffKey items) :
    List.Pairwise diffKey (pushShow p now items s) := by
  have hone : pushShowOneOff p items s = items := by
    unfold pushShowOneOff
    rw [if_neg (by simp [hrec])]
  unfold pushShow
  rw [hone]
  by_cases hr : s.is_recurring = true ∧ strTruthy s.recurrence_type = true
  · rw [if_pos hr]
    exact dedupFoldl_pairwise s.id tShow (mkShowItem s)
      (fun _ => rfl) (fun _ => rfl) (fun _ => rfl) _ items h
  · rw [if_neg hr]
    exact h

/-- Processing a recurring event preserves pairwise-distinct keys. -/
theorem pushEvent_recurring_pairwise {p : JsString → Option JsDate}
    {now : JsDate} {items : List CalendarItem} (e : Event)
    (hrec : e.is_recurring = true) (h : List.Pairwise diffKey items) :
    List.Pairwise diffKey (pushEvent p now items e) := by
  have hone : pushEventOneOff p items e = items := by
    unfold pushEventOneOff
    rw [if_neg (by simp [hrec])]
  unfold pushEvent
  rw [hone]
  by_cases hr : e.is_recurring = true ∧ strTruthy e.recurrence_type = true
  · rw [if_pos hr]
    exact dedupFoldl_pairwise e.id tEvent (mkEventItem e)
      (fun _ => rfl) (fun _ => rfl) (fun _ => rfl) _ items h
  · rw [if_neg hr]
    exact h

/-- Auxiliary predicate preservation along a fold. -/
theorem foldl_preserve {α β : Type} (P : β → Prop) (f : β → α → β) (l : List α)
    (h : ∀ a ∈ l, ∀ b, P b → P (f b a)) :
    ∀ init, P init → P (l.foldl f init) := by
  induction l with
  | nil => intro init hi; exact hi
  | cons a l ih =>
    intro init hi
    rw [List.foldl_cons]
    exact ih (fun x hx b hb => h x (List.mem_cons_of_mem a hx) b hb) _
      (h a (List.mem_cons_self a l) init hi)

/-- Claim C4, amended: for recurring entities the deduplication invariant
holds — the guarded recurring push path never appends an item whose
(entityId, entityType, calendar day) key an accumulated item already carries,
so with all-recurring inputs the output (duplicated list entries included)
has pairwise-distinct keys.  (Duplicate non-recurring entries are pushed
without any probe, which is the counterexample to the unrestricted claim.) -/
theorem recurring_dedup_invariant (p : JsString → Option JsDate)
    (shows : List Show) (events : List Event) (filter searchQuery : JsString)
    (now : JsDate)
    (hs : ∀ s ∈ shows, s.is_recurring = true)
    (he : ∀ e ∈ events, e.is_recurring = true) :
    List.Pairwise diffKey
      (calendarItems p shows events filter searchQuery now) := by
  have hraw : List.Pairwise diffKey (calendarItemsRaw p shows events filter now) := by
    unfold calendarItemsRaw showItemsAcc
    have hshowsAcc : List.Pairwise diffKey (shows.foldl (pushShow p now) []) :=
      foldl_preserve _ _ shows
        (fun s hs2 b hb => pushShow_recurring_pairwise s (hs s hs2) hb)
        [] List.Pairwise.nil
    have heventsAcc : ∀ init, List.Pairwise diffKey init →
        List.Pairwise diffKey (events.foldl (pushEvent p now) init) :=
      foldl_preserve _ _ events
        (fun e he2 b hb => pushEvent_recurring_pairwise e (he e he2) hb)
    by_cases hfe : filter = fAll ∨ filter = fEvents
    · rw [if_pos hfe]
      apply heventsAcc
      by_cases hfs : filter = fAll ∨ filter = fShows
      · rw [if_pos hfs]; exact hshowsAcc
      · rw [if_neg hfs]; exact List.Pairwise.nil
    · rw [if_neg hfe]
      by_cases hfs : filter = fAll ∨ filter = fShows
      · rw [if_pos hfs]; exact hshowsAcc
      · rw [if_neg hfs]; exact List.Pairwise.nil
  unfold calendarItems
  by_cases hq : searchQuery = []
  · rw [if_pos hq]
    exact ((sortByTime_perm _).pairwise_iff @diffKey_symm).mpr hraw
  · rw [if_neg hq]
    exact hraw.sublist (List.filter_sublist _)

/-- A recurring SPECIFIC_DAY(0) show scheduled at "18:30". -/
def showMon : Show :=
  { id := 2, title := [], scheduled_time := some time1830, day_of_week := some 0
    is_recurring := true, recurrence_type := some rSPECIFIC, creator_username := [] }

/-- Witness for the amended C4: the same recurring show listed twice still
yields pairwise-distinct keys. -/
theorem recurring_dedup_invariant_witness :
    (∀ s ∈ [showMon, showMon], s.is_recurring = true)
    ∧ List.Pairwise diffKey
        (calendarItems noParse [showMon, showMon] [] fAll []
          { day := day20240603, ms := 0, valid := true }) :=
  ⟨by decide,
   recurring_dedup_invariant noParse [showMon, showMon] [] fAll []
     { day := day20240603, ms := 0, valid := true } (by decide) (by decide)⟩

/-- Auxiliary: a filterMap that always drops yields the empty list. -/
theorem filterMap_none_eq_nil {α β : Type} (l : List α) :
    l.filterMap (fun _ => (none : Option β)) = [] := by
  induction l with
  | nil => rfl
  | cons a l ih => rw [List.filterMap_cons]; exact ih

/-- A SPECIFIC_DAY rule with no anchor day matches no weekday. -/
theorem shouldAdd_specific_none (x : Nat) :
    shouldAddDay (some rSPECIFIC) none x = false := rfl

/-- A SPECIFIC_DAY anchor day below -1 or above 6 matches no JS weekday:
its converted value lies outside 0..6. -/
theorem shouldAdd_specific_out {d : Int} (hd : d < -1 ∨ 6 < d) (x : Nat)
    (hx : x < 7) : shouldAddDay (some rSPECIFIC) (some d) x = false := by
  have hform : shouldAddDay (some rSPECIFIC) (some d) x
      = decide ((x : Int) = frontendDay d) := rfl
  rw [hform]
  apply decide_eq_false
  intro hc
  unfold frontendDay at hc
  rcases hd with hd | hd <;> split at hc <;> omega

/-- When the SPECIFIC_DAY test rejects every weekday, the projection loop
emits nothing. -/
theorem specificDay_skip (p : JsString → Option JsDate) (dow : Option Int)
    (st : Option JsString) (now : JsDate) (n : Nat)
    (hskip : ∀ x : Nat, x < 7 → shouldAddDay (some rSPECIFIC) dow x = false) :
    projectRecurringDatesOver p (some rSPECIFIC) dow st now n = [] := by
  unfold projectRecurringDatesOver
  rw [filterMap_ext _ (fun _ => none) _ ?_]
  · exact filterMap_none_eq_nil _
  · intro a _
    have hlt : JsDate.getDay { day := now.day + a, ms := now.ms, valid := now.valid } < 7 :=
      Nat.mod_lt _ (by decide)
    rw [hskip _ hlt]
    rfl

/-- A show that the calendar must treat as producing no occurrences: it is
recurring but its rule is absent/empty, or its rule is SPECIFIC_DAY with a
missing anchor day or an anchor day whose converted weekday is outside 0..6
(below -1 or above 6; -1 itself slips through the conversion). -/
def malformedShow (s : Show) : Bool :=
  s.is_recurring && (!strTruthy s.recurrence_type
    || (s.recurrence_type == some rSPECIFIC &&
        match s.day_of_week with
        | none => true
        | some d => decide (d < -1 ∨ 6 < d)))

/-- Processing a malformed show leaves the accumulated items unchanged. -/
theorem pushShow_malformed (p : JsString → Option JsDate) (now : JsDate)
    (items : List CalendarItem) (s : Show) (hm : malformedShow s = true) :
    pushShow p now items s = items := by
  unfold malformedShow at hm
  rw [Bool.and_eq_true] at hm
  obtain ⟨hrec, hrest⟩ := hm
  have hone : pushShowOneOff p items s = items := by
    unfold pushShowOneOff
    rw [if_neg (by simp [hrec])]
  unfold pushShow
  rw [hone]
  rw [Bool.or_eq_true] at hrest
  rcases hrest with hnt | hsp
  · rw [Bool.not_eq_true'] at hnt
    rw [if_neg (fun hc => by rw [hnt] at hc; exact absurd hc.2 (by simp))]
  · rw [Bool.and_eq_true] at hsp
    obtain ⟨htype, hday⟩ := hsp
    have htype' : s.recurrence_type = some rSPECIFIC := eq_of_beq htype
    by_cases hr : s.is_recurring = true ∧ strTruthy s.recurrence_type = true
    · rw [if_pos hr]
      unfold projectRecurringDates
      have hempty : projectRecurringDatesOver p s.recurrence_type s.day_of_week
          s.scheduled_time now 28 = [] := by
        rw [htype']
        cases hdw : s.day_of_week with
        | none => exact specificDay_skip p none _ now 28 (fun x _ => shouldAdd_specific_none x)
        | some d =>
          rw [hdw] at hday
          simp only [decide_eq_true_eq] at hday
          exact specificDay_skip p (some d) _ now 28 (fun x hx => shouldAdd_specific_out hday x hx)
      rw [hempty]
      rfl
    · rw [if_neg hr]

/-- Claim C8, amended: a recurring entity without a rule emits nothing; a
SPECIFIC_DAY anchor day below -1 or above 6 emits nothing (the claim's
"outside 0..6" fails only at -1, which the conversion maps to Sunday); and a
malformed show anywhere in the list leaves the projection of all the other
entities unchanged. -/
theorem malformed_entity_isolated :
    (∀ (p : JsString → Option JsDate) (d : Int) (st : Option JsString)
        (now : JsDate) (n : Nat), d < -1 ∨ 6 < d →
        projectRecurringDatesOver p (some rSPECIFIC) (some d) st now n = [])
    ∧ (∀ (p : JsString → Option JsDate) (now : JsDate)
        (items : List CalendarItem) (s : Show), malformedShow s = true →
        pushShow p now items s = items)
    ∧ (∀ (p : JsString → Option JsDate) (shows1 shows2 : List Show)
        (events : List Event) (filter searchQuery : JsString) (now : JsDate)
        (s : Show), malformedShow s = true →
        calendarItems p (shows1 ++ s :: shows2) events filter searchQuery now
          = calendarItems p (shows1 ++ shows2) events filter searchQuery now) := by
  refine ⟨?_, ?_, ?_⟩
  · intro p d st now n hd
    exact specificDay_skip p (some d) st now n (fun x hx => shouldAdd_specific_out hd x hx)
  · exact pushShow_malformed
  · intro p shows1 shows2 events filter searchQuery now s hm
    have hfold : (shows1 ++ s :: shows2).foldl (pushShow p now) []
        = (shows1 ++ shows2).foldl (pushShow p now) [] := by
      rw [List.foldl_append, List.foldl_append, List.foldl_cons,
        pushShow_malformed p now _ s hm]
    unfold calendarItems calendarItemsRaw showItemsAcc
    rw [hfold]

/-- A recurring SPECIFIC_DAY show with the out-of-range backend day 9. -/
def badDay9Show : Show :=
  { id := 6, title := [], scheduled_time := none, day_of_week := some 9
    is_recurring := true, recurrence_type := some rSPECIFIC, creator_username := [] }

/-- Witness for the amended C8: inserting the backend-day-9 show leaves a
DAILY show's projection unchanged. -/
theorem malformed_entity_isolated_witness :
    malformedShow badDay9Show = true
    ∧ calendarItems noParse ([dailyShow] ++ badDay9Show :: []) [] fAll []
        { day := day20240603, ms := 0, valid := true }
      = calendarItems noParse ([dailyShow] ++ []) [] fAll []
        { day := day20240603, ms := 0, valid := true } :=
  ⟨by decide,
   malformed_entity_isolated.2.2 noParse [dailyShow] [] [] fAll []
     { day := day20240603, ms := 0, valid := true } badDay9Show (by decide)⟩

end DeOrganized
